import Mathlib

/-!
Verification development for a chat-backup utility (`src/viewer.js`).

The repository bundles three node programs in one source file: a terminal
viewer (`listChats` / `displayChat`), and two variants of the backup tool.
Variant 1 ("Modified for Chronological Integrity") uses the helper
`getChatFilenameBase`, syncs with default limit 99999 and reverses the
fetched message list; variant 2 inlines the name logic, syncs with default
limit 50 and does not reverse.

We shallowly embed the pure content of these functions:

* a message record is the object literal built in `processMessage`;
* a conversation log file is modelled as `FileState`: absent, present but
  unparsable as a JSON array (reading throws, callers treat it as empty),
  or a parsed array of records;
* `checkDuplicate` and `appendToJson` are translated directly;
* the per-message log path of `processMessage` (duplicate check, then
  append) is `processMessageLog`;
* the sync loops of both variants are modelled over a provider that
  returns, per chat, either an error (thrown by `fetchMessages`) or a
  newest-first list of messages;
* the media branch of `processMessage` is `processMessageMedia`, over a
  directory modelled as an association list of (filename, contents);
* `getChatFilenameBase` (variant 1, lines 172-200) is translated with the
  external contact lookup as an `Except` input.
-/

/-- A persisted message record, the object literal built in
`processMessage` (fields `id`, `from`, `to`, `author`, `body`,
`timestamp`, `hasMedia`, `isSentByMe`, `isViewOnce`). -/
structure Rec where
  id : String
  msgFrom : String
  msgTo : String
  author : String
  body : String
  timestamp : String
  hasMedia : Bool
  isSentByMe : Bool
  isViewOnce : Bool
  deriving Repr, DecidableEq

/-- State of one conversation's `messages.json` file.
`none`: the file does not exist (`fs.pathExists` is false).
`some (.error e)`: the file exists but `fs.readJson` throws, or the value
is not an array (so `data.some` / `data[...]` would throw); both kinds of
failure land in the callers' `catch` blocks.
`some (.ok data)`: the file parses as a JSON array of records. -/
def FileState : Type := Option (Except String (List Rec))

/-- The array a reader obtains from the file, with absence and parse
failure both treated as the empty array (the shared behaviour of
`appendToJson` and `checkDuplicate`). -/
def readArray (file : FileState) : List Rec :=
  match file with
  | some (Except.ok data) => data
  | _ => []

/-- `checkDuplicate(filePath, msgId)` (viewer.js lines 330-338): if the
file exists, read it and return `data.some(m => m.id === msgId)`; on any
exception, and when the file is absent, return `false`. -/
def checkDuplicate (file : FileState) (msgId : String) : Bool :=
  match file with
  | some (Except.ok data) => data.any (fun m => m.id == msgId)
  | _ => false

/-- `appendToJson(filePath, newData)` (viewer.js lines 316-327): load the
current array (empty on absence or parse failure); if it is non-empty and
its last element's `id` equals `newData.id`, return without writing
(the file keeps its previous state); otherwise push `newData` and rewrite
the file with the extended array. -/
def appendToJson (file : FileState) (newData : Rec) : FileState :=
  let data := readArray file
  match data.getLast? with
  | some lastRec =>
      if lastRec.id == newData.id then file
      else some (Except.ok (data ++ [newData]))
  | none => some (Except.ok (data ++ [newData]))

/-- The log-saving path of `processMessage` (viewer.js lines 229-245):
`checkDuplicate` on the message id, and `appendToJson` only when it
reports no duplicate. -/
def processMessageLog (file : FileState) (m : Rec) : FileState :=
  if checkDuplicate file m.id then file else appendToJson file m

/-- Feeding a sequence of messages one by one through the per-message
archival path. -/
def archiveAll (file : FileState) (msgs : List Rec) : FileState :=
  msgs.foldl processMessageLog file

/-- First-occurrence deduplication of a record sequence: keep a record
iff no earlier record carries the same `id`. -/
def firstOccurRecords (msgs : List Rec) : List Rec :=
  msgs.foldl (fun acc m => if acc.any (fun r => r.id == m.id) then acc else acc ++ [m]) []

-- Basic lemmas about the archival step.

theorem checkDuplicate_ok (data : List Rec) (msgId : String) :
    checkDuplicate (some (Except.ok data)) msgId = data.any (fun m => m.id == msgId) := rfl

theorem readArray_ok (data : List Rec) :
    readArray (some (Except.ok data)) = data := rfl

/-- On a parsed log whose ids do not contain `m.id`, the archival step
appends `m`; when the id is already present it leaves the log unchanged. -/
theorem processMessageLog_ok (acc : List Rec) (m : Rec) :
    processMessageLog (some (Except.ok acc)) m =
      some (Except.ok (if acc.any (fun r => r.id == m.id) then acc else acc ++ [m])) := by
  cases hany : acc.any (fun r => r.id == m.id) with
  | true => simp [processMessageLog, checkDuplicate, hany]
  | false =>
    have hlast : ∀ lastRec, acc.getLast? = some lastRec → (lastRec.id == m.id) = false := by
      intro lastRec hl
      cases hb : lastRec.id == m.id
      · rfl
      · exfalso
        have hmem : lastRec ∈ acc := by
          obtain ⟨hne, heq⟩ :=
            List.mem_getLast?_eq_getLast (l := acc) (x := lastRec) (by rw [hl]; rfl)
          rw [heq]
          exact List.getLast_mem hne
        have : acc.any (fun r => r.id == m.id) = true :=
          List.any_eq_true.mpr ⟨lastRec, hmem, hb⟩
        rw [hany] at this
        exact Bool.false_ne_true this
    simp only [processMessageLog, checkDuplicate, hany, Bool.false_eq_true, if_false]
    unfold appendToJson
    simp only [readArray_ok]
    match hl : acc.getLast? with
    | none => simp [hany]
    | some lastRec => simp [hlast lastRec hl, hany]

/-- Starting from an absent file, the first archival step behaves exactly
as on an empty parsed array. -/
theorem processMessageLog_none (m : Rec) :
    processMessageLog none m = processMessageLog (some (Except.ok [])) m := by
  simp [processMessageLog, checkDuplicate, appendToJson, readArray]

theorem archiveAll_ok (msgs : List Rec) (acc : List Rec) :
    archiveAll (some (Except.ok acc)) msgs =
      some (Except.ok (msgs.foldl
        (fun acc m => if acc.any (fun r => r.id == m.id) then acc else acc ++ [m]) acc)) := by
  induction msgs generalizing acc with
  | nil => rfl
  | cons m rest ih =>
      have step := processMessageLog_ok acc m
      unfold archiveAll at *
      simp only [List.foldl_cons, step]
      exact ih _

/-- The log file read back after feeding a sequence of messages into an
initially absent log is exactly the first-occurrence deduplication of the
sequence. -/
theorem readArray_archiveAll_none (msgs : List Rec) :
    readArray (archiveAll none msgs) = firstOccurRecords msgs := by
  cases msgs with
  | nil => rfl
  | cons m rest =>
      show readArray (List.foldl processMessageLog (processMessageLog none m) rest) = _
      rw [processMessageLog_none m, processMessageLog_ok]
      have h2 := archiveAll_ok rest
        (if ([] : List Rec).any (fun r => r.id == m.id) then [] else [] ++ [m])
      unfold archiveAll at h2
      rw [h2, readArray_ok]
      rfl

/-- The first-occurrence fold keeps the ids of its accumulator duplicate
free. -/
theorem foldl_dedup_nodup (msgs : List Rec) :
    ∀ acc : List Rec, (acc.map Rec.id).Nodup →
      ((msgs.foldl
        (fun acc m => if acc.any (fun r => r.id == m.id) then acc else acc ++ [m]) acc).map
          Rec.id).Nodup := by
  induction msgs with
  | nil => intro acc h; exact h
  | cons m rest ih =>
      intro acc h
      simp only [List.foldl_cons]
      by_cases hm : (acc.any fun r => r.id == m.id) = true
      · simpa [hm] using ih acc h
      · have hnotin : m.id ∉ acc.map Rec.id := by
          intro hin
          obtain ⟨r, hr, hid⟩ := List.mem_map.mp hin
          exact hm (List.any_eq_true.mpr ⟨r, hr, by simp [hid]⟩)
        have hnd : ((acc ++ [m]).map Rec.id).Nodup := by
          rw [List.map_append]
          refine List.Nodup.append h (by simp) ?_
          intro a ha hb
          simp only [List.map_cons, List.map_nil, List.mem_singleton] at hb
          exact hnotin (hb ▸ ha)
        simpa [hm] using ih (acc ++ [m]) hnd

/-- A concrete message record whose id is the given string; the remaining
fields are fixed plausible values. Used for concrete runs of the embedded
functions. -/
def mkRec (i : String) : Rec :=
  ⟨i, "111@c.us", "222@c.us", "111@c.us", "hello", "2024-01-01T00:00:00.000Z",
    false, false, false⟩

/-- C1: for every sequence of messages fed through the per-message
archival path (duplicate check followed by append) starting from an
absent log, the resulting conversation log is the first-occurrence
deduplication of the sequence: each distinct id appears at most once, and
records stand in order of the first occurrence of their id in the input. -/
theorem archival_log_nodup_first_seen (msgs : List Rec) :
    readArray (archiveAll none msgs) = firstOccurRecords msgs ∧
    ((readArray (archiveAll none msgs)).map Rec.id).Nodup := by
  refine ⟨readArray_archiveAll_none msgs, ?_⟩
  rw [readArray_archiveAll_none msgs]
  unfold firstOccurRecords
  exact foldl_dedup_nodup msgs [] (by simp)

/-- C5: `checkDuplicate` returns true exactly when the file parses as an
array one of whose records carries the requested id; absence and parse
failure give false. -/
theorem checkDuplicate_true_iff (file : FileState) (msgId : String) :
    checkDuplicate file msgId = true ↔
      ∃ data : List Rec, file = some (Except.ok data) ∧ ∃ m ∈ data, m.id = msgId := by
  constructor
  · intro h
    match file, h with
    | none, h => simp [checkDuplicate] at h
    | some (Except.error e), h => simp [checkDuplicate] at h
    | some (Except.ok data), h =>
        refine ⟨data, rfl, ?_⟩
        obtain ⟨m, hm, hid⟩ := List.any_eq_true.mp h
        exact ⟨m, hm, by simpa using hid⟩
  · rintro ⟨data, rfl, m, hm, hid⟩
    show data.any (fun r => r.id == msgId) = true
    exact List.any_eq_true.mpr ⟨m, hm, by simp [hid]⟩

/-- C6: `appendToJson` writes `[record]` when the loaded array is empty
(absent, unparsable or empty file); leaves the file untouched when the
last element's id equals the new record's id; and otherwise appends the
record as the new last element. -/
theorem appendToJson_spec (file : FileState) (newData : Rec) :
    (readArray file = [] → appendToJson file newData = some (Except.ok [newData])) ∧
    (∀ lastRec, (readArray file).getLast? = some lastRec → lastRec.id = newData.id →
       appendToJson file newData = file) ∧
    (∀ lastRec, (readArray file).getLast? = some lastRec → lastRec.id ≠ newData.id →
       appendToJson file newData = some (Except.ok (readArray file ++ [newData]))) := by
  refine ⟨?_, ?_, ?_⟩
  · intro h
    simp [appendToJson, h]
  · intro lastRec hl hid
    simp [appendToJson, hl, hid]
  · intro lastRec hl hid
    have hb : (lastRec.id == newData.id) = false := beq_eq_false_iff_ne.mpr hid
    simp [appendToJson, hl, hb]

/-- Witness for `appendToJson_spec`: on a log ending in id "1", appending
a record with id "1" leaves the file unchanged. -/
theorem appendToJson_spec_witness :
    appendToJson (some (Except.ok [mkRec "1"])) (mkRec "1") =
      some (Except.ok [mkRec "1"]) :=
  (appendToJson_spec (some (Except.ok [mkRec "1"])) (mkRec "1")).2.1 (mkRec "1")
    (by rfl) rfl

/-- Variant 1 sync step for one chat (viewer.js lines 296-308): fetch the
provider's newest-first list, reverse it, and feed each message through
`processMessage`; only the log path is modelled here. -/
def syncChatReversed (provider : List Rec) (file : FileState) : FileState :=
  archiveAll file provider.reverse

/-- Variant 2 sync step for one chat (viewer.js lines 493-497): fetch the
provider's newest-first list and feed it through `processMessage` in the
returned order, without reversing. -/
def syncChatForward (provider : List Rec) (file : FileState) : FileState :=
  archiveAll file provider

/-- C2 (amended): the variant-1 sync step reverses the provider's
newest-first list, so provider ids [3,2,1] archive as [1,2,3]; the
variant-2 sync step replays the provider order unchanged, archiving
[3,2,1]. -/
theorem syncChat_order_by_variant :
    readArray (syncChatReversed [mkRec "3", mkRec "2", mkRec "1"] none) =
      [mkRec "1", mkRec "2", mkRec "3"] ∧
    readArray (syncChatForward [mkRec "3", mkRec "2", mkRec "1"] none) =
      [mkRec "3", mkRec "2", mkRec "1"] := by
  constructor
  · rfl
  · rfl

/-- Counterexample to C2 as stated: the variant-2 sync loop does not
reverse, so a provider returning ids [3,2,1] does not yield archive order
[1,2,3] there. -/
theorem syncChatForward_not_chronological :
    readArray (syncChatForward [mkRec "3", mkRec "2", mkRec "1"] none) ≠
      [mkRec "1", mkRec "2", mkRec "3"] := by
  decide

/-- The startup sync loop (viewer.js lines 283-313; variant 2 lines
482-505 has the same control structure). Each chat contributes either a
thrown fetch error or a newest-first message list; each chat's log file
starts absent. The `try`/`catch` wraps the whole `for` loop, so a thrown
fetch error terminates the loop: the failing chat and every chat after it
keep their (absent, hence empty) logs. The returned list holds each
chat's final log array in enumeration order. -/
def runSync : List (Except String (List Rec)) → List (List Rec)
  | [] => []
  | Except.ok msgs :: rest => readArray (syncChatReversed msgs none) :: runSync rest
  | Except.error _ :: rest => [] :: rest.map (fun _ => ([] : List Rec))

/-- Modelled from the spec for comparison: "a fetch error for one
conversation is logged and the driver continues to the next
conversation" — identical to `runSync` except that it recurses past a
failed fetch. -/
def runSyncContinueSpec : List (Except String (List Rec)) → List (List Rec)
  | [] => []
  | Except.ok msgs :: rest => readArray (syncChatReversed msgs none) :: runSyncContinueSpec rest
  | Except.error _ :: rest => [] :: runSyncContinueSpec rest

/-- Counterexample to C3 as stated: with a failing first chat and a
healthy second chat, the code leaves the second chat unsynced (empty
log), while the spec's continue-on-error driver would archive its
message. -/
theorem runSync_stops_counterexample :
    runSync [Except.error "boom", Except.ok [mkRec "1"]] = [[], []] ∧
    runSyncContinueSpec [Except.error "boom", Except.ok [mkRec "1"]] = [[], [mkRec "1"]] ∧
    runSync [Except.error "boom", Except.ok [mkRec "1"]] ≠
      runSyncContinueSpec [Except.error "boom", Except.ok [mkRec "1"]] := by
  refine ⟨rfl, rfl, ?_⟩
  decide

/-- C3 (amended): a fetch error for one conversation aborts the whole
startup sync pass: conversations before the failure are synced, the
failing conversation and every conversation after it are left with empty
logs. -/
theorem runSync_aborts_after_error (pre : List (List Rec)) (e : String)
    (rest : List (Except String (List Rec))) :
    runSync (pre.map Except.ok ++ Except.error e :: rest) =
      pre.map (fun msgs => readArray (syncChatReversed msgs none)) ++
        [] :: rest.map (fun _ => ([] : List Rec)) := by
  induction pre with
  | nil => rfl
  | cons p ps ih =>
      simp only [List.map_cons, List.cons_append, runSync, List.append_eq, ih]

/-- The character class kept by the sanitizing regex
`[^a-zA-Z0-9_\- ]` in `getChatFilenameBase`: ASCII letters, digits,
underscore, hyphen and space. -/
def isAllowed (c : Char) : Bool :=
  ('a' ≤ c && c ≤ 'z') || ('A' ≤ c && c ≤ 'Z') || ('0' ≤ c && c ≤ '9') ||
    c == '_' || c == '-' || c == ' '

/-- JS `String.prototype.trim` on a character list: drop whitespace from
the front, then from the back. -/
def trimChars (l : List Char) : List Char :=
  (l.dropWhile Char.isWhitespace).rdropWhile Char.isWhitespace

/-- JS `s.trim()`. -/
def strTrim (s : String) : String :=
  String.mk (trimChars s.data)

/-- The sanitization step of `getChatFilenameBase`:
`name.replace(/[^a-zA-Z0-9_\- ]/g, _).trim()` — every character outside
the allowed class becomes an underscore, then surrounding whitespace is
trimmed. -/
def sanitize (s : String) : String :=
  String.mk (trimChars (s.data.map (fun c => if isAllowed c then c else '_')))

theorem mem_of_mem_trimChars {c : Char} {l : List Char} (h : c ∈ trimChars l) : c ∈ l := by
  unfold trimChars at h
  have h1 : c ∈ l.dropWhile Char.isWhitespace :=
    (List.rdropWhile_prefix Char.isWhitespace _).sublist.mem h
  exact (List.dropWhile_suffix Char.isWhitespace).sublist.mem h1

theorem trimChars_getLast?_not_ws (l : List Char) (c : Char)
    (hl : (trimChars l).getLast? = some c) : c.isWhitespace = false := by
  obtain ⟨hne, heq⟩ :=
    List.mem_getLast?_eq_getLast (l := trimChars l) (x := c) (by rw [hl]; rfl)
  have := List.rdropWhile_last_not Char.isWhitespace (l.dropWhile Char.isWhitespace) hne
  rw [heq]
  simpa using this

theorem trimChars_head?_not_ws (l : List Char) (c : Char)
    (hl : (trimChars l).head? = some c) : c.isWhitespace = false := by
  obtain ⟨t, ht⟩ := List.rdropWhile_prefix Char.isWhitespace (l.dropWhile Char.isWhitespace)
  have hsome : (l.dropWhile Char.isWhitespace).head? = some c := by
    rw [← ht, List.head?_append]
    unfold trimChars at hl
    rw [hl]
    rfl
  have hmatch := List.head?_dropWhile_not Char.isWhitespace l
  rw [hsome] at hmatch
  exact hmatch

/-- A string whose characters all lie in the sanitized class and which
carries no surrounding whitespace. -/
def goodBase (s : String) : Prop :=
  (∀ c ∈ s.data, isAllowed c = true) ∧
    (∀ c, s.data.head? = some c → c.isWhitespace = false) ∧
    (∀ c, s.data.getLast? = some c → c.isWhitespace = false)

theorem goodBase_sanitize (s : String) : goodBase (sanitize s) := by
  refine ⟨?_, ?_, ?_⟩
  · intro c hc
    have hc' : c ∈ s.data.map (fun c => if isAllowed c then c else '_') :=
      mem_of_mem_trimChars hc
    obtain ⟨x, _, hfx⟩ := List.mem_map.mp hc'
    rw [← hfx]
    by_cases hx : isAllowed x
    · simp [hx]
    · simp only [hx, Bool.false_eq_true, if_false]
      decide
  · intro c hc
    exact trimChars_head?_not_ws _ c hc
  · intro c hc
    exact trimChars_getLast?_not_ws _ c hc

/-- The apostrophe character, `U+0027`. -/
def apos : Char := Char.ofNat 39

/-- The example input of the spec's sanitization property. -/
def c8Input : String := "O" ++ String.singleton apos ++ "Brien/Team #1"

/-- C8: the sanitization maps the name O(apostrophe)Brien/Team #1 to
"O_Brien_Team _1": the apostrophe, the slash and the hash sign are each
replaced by an underscore and the result needs no trimming. -/
theorem sanitize_c8_example : sanitize c8Input = "O_Brien_Team _1" := by
  decide

/-- The fields of a chat object used by `getChatFilenameBase`:
`isGroup`, `id._serialized`, `id.user` and `name`. A JS-falsy string
(empty) is modelled by `""`. -/
structure Chat where
  isGroup : Bool
  idSerialized : String
  idUser : String
  name : String
  deriving Repr, DecidableEq

/-- The fields of a contact object used by `getChatFilenameBase`:
`name`, `pushname` and `id.user`. -/
structure Contact where
  name : String
  pushname : String
  idUser : String
  deriving Repr, DecidableEq

/-- The phone-number fallback of the `catch` branch:
`msgFrom ? msgFrom.split(...)[0] : chat.id.user`, splitting on the at
sign. -/
def phoneFallback (chat : Chat) (msgFrom : String) : String :=
  if msgFrom = "" then chat.idUser else (msgFrom.splitOn "@").headD ""

/-- `getChatFilenameBase(chat, msgFrom)` (viewer.js lines 172-200).
The external `client.getContactById` call is passed in as `lookup`:
`Except.ok contact` when it resolves, `Except.error e` when it throws.
For a direct chat, the contact's `name`, then `pushname`, then `id.user`
is sanitized when one of them is non-empty; otherwise the default
`chat.id._serialized` stands un-sanitized. When the lookup throws, the
phone number from `msgFrom` (or `chat.id.user`) stands un-sanitized,
with `chat.id._serialized` as last resort. For a group chat the trimmed
group name (or, when that is empty, the serialized id) is sanitized. -/
def getChatFilenameBase (chat : Chat) (msgFrom : String)
    (lookup : Except String Contact) : String :=
  if chat.isGroup then
    let base := if chat.name = "" then chat.idSerialized
      else if strTrim chat.name = "" then chat.idSerialized
      else strTrim chat.name
    sanitize base
  else
    match lookup with
    | Except.ok contact =>
        let contactName := if contact.name = "" then
            (if contact.pushname = "" then contact.idUser else contact.pushname)
          else contact.name
        if contactName = "" then chat.idSerialized else sanitize contactName
    | Except.error _ =>
        let phoneNumber := phoneFallback chat msgFrom
        if phoneNumber = "" then chat.idSerialized else phoneNumber

/-- C4 (amended): the resolver is total and returns either a sanitized
name (all characters in the allowed class, no surrounding whitespace), or
one of the two raw fallback values: the serialized chat id, or the
phone-number fallback of the lookup-failure branch. Group chats always
get the sanitized form. -/
theorem getChatFilenameBase_sanitized_or_fallback (chat : Chat) (msgFrom : String)
    (lookup : Except String Contact) :
    (goodBase (getChatFilenameBase chat msgFrom lookup) ∨
      getChatFilenameBase chat msgFrom lookup = chat.idSerialized ∨
      getChatFilenameBase chat msgFrom lookup = phoneFallback chat msgFrom) ∧
    (chat.isGroup = true → goodBase (getChatFilenameBase chat msgFrom lookup)) := by
  by_cases hg : chat.isGroup
  · constructor
    · left
      simp only [getChatFilenameBase, hg, if_true]
      exact goodBase_sanitize _
    · intro _
      simp only [getChatFilenameBase, hg, if_true]
      exact goodBase_sanitize _
  · refine ⟨?_, fun hc => absurd hc hg⟩
    simp only [getChatFilenameBase, hg, Bool.false_eq_true, if_false]
    match lookup with
    | Except.ok contact =>
        by_cases hn : (if contact.name = "" then
            (if contact.pushname = "" then contact.idUser else contact.pushname)
          else contact.name) = ""
        · right; left; simp [hn]
        · left; simp only [hn, if_false]; exact goodBase_sanitize _
    | Except.error e =>
        by_cases hp : phoneFallback chat msgFrom = ""
        · right; left; simp [hp]
        · right; right; simp [hp]

/-- Witness for `getChatFilenameBase_sanitized_or_fallback`: a group chat
whose subject carries an exclamation mark still resolves to a sanitized
base name. -/
theorem getChatFilenameBase_sanitized_or_fallback_witness :
    goodBase (getChatFilenameBase ⟨true, "12345@g.us", "12345", "My Group!"⟩ ""
      (Except.error "lookup failed")) :=
  (getChatFilenameBase_sanitized_or_fallback ⟨true, "12345@g.us", "12345", "My Group!"⟩ ""
    (Except.error "lookup failed")).2 rfl

/-- Counterexample to C4 as stated: for a direct chat whose contact
resolves but carries no name, pushname or user id, the resolver returns
the raw serialized chat id, which contains an at sign — a character
outside the allowed class that was not replaced by an underscore. -/
theorem getChatFilenameBase_unsanitized_counterexample :
    getChatFilenameBase ⟨false, "123@c.us", "", ""⟩ "" (Except.ok ⟨"", "", ""⟩) =
        "123@c.us" ∧
      '@' ∈ ("123@c.us" : String).data ∧ isAllowed '@' = false := by
  refine ⟨rfl, by decide, by decide⟩

/-- The message fields used by the media branch of `processMessage`:
`id.id` and `isViewOnce`. -/
structure MediaMsg where
  id : String
  isViewOnce : Bool
  deriving Repr, DecidableEq

/-- A downloaded media object: its base64 payload and the extension that
`mime.extension(media.mimetype)` yields (`none` when that call returns a
falsy value). -/
structure Media where
  payload : String
  mimeExt : Option String
  deriving Repr, DecidableEq

/-- The media file name `(VIEWONCE_ prefixed when flagged)id.extension`,
with extension defaulting to `bin`. -/
def mediaFilename (msg : MediaMsg) (media : Media) : String :=
  (if msg.isViewOnce then "VIEWONCE_" else "") ++ msg.id ++ "." ++ media.mimeExt.getD "bin"

/-- The media branch of `processMessage` (viewer.js lines 256-271) on the
per-day media directory, modelled as an association list from file name
to contents. `media = none` models `downloadMedia()` returning a falsy
value (nothing is written). Otherwise the file is written only when
`fs.pathExists` is false for the computed path. -/
def processMessageMedia (dir : List (String × String)) (msg : MediaMsg)
    (media : Option Media) : List (String × String) :=
  match media with
  | none => dir
  | some med =>
      let fp := mediaFilename msg med
      if dir.any (fun e => e.1 == fp) then dir else dir ++ [(fp, med.payload)]

/-- C7: media persistence is idempotent by file presence. Running the
media branch twice with the same message and media equals running it
once; contents found at any existing path are never overwritten; and
when no file of the computed name exists yet, two runs leave exactly one
file of that name. -/
theorem processMessageMedia_idempotent (dir : List (String × String)) (msg : MediaMsg)
    (media : Option Media) :
    processMessageMedia (processMessageMedia dir msg media) msg media =
        processMessageMedia dir msg media ∧
      (∀ p c, dir.find? (fun e => e.1 == p) = some (p, c) →
        (processMessageMedia dir msg media).find? (fun e => e.1 == p) = some (p, c)) ∧
      (∀ med, media = some med →
        dir.any (fun e => e.1 == mediaFilename msg med) = false →
        (processMessageMedia (processMessageMedia dir msg media) msg media).countP
          (fun e => e.1 == mediaFilename msg med) = 1) := by
  refine ⟨?_, ?_, ?_⟩
  · match media with
    | none => rfl
    | some med =>
        by_cases h : dir.any (fun e => e.1 == mediaFilename msg med)
        · simp [processMessageMedia, h]
        · simp [processMessageMedia, h]
  · intro p c hfind
    match media with
    | none => exact hfind
    | some med =>
        by_cases h : dir.any (fun e => e.1 == mediaFilename msg med)
        · simpa [processMessageMedia, h] using hfind
        · simp only [processMessageMedia, h, Bool.false_eq_true, if_false]
          rw [List.find?_append, hfind]
          rfl
  · intro med hmed h
    subst hmed
    have hcount : dir.countP (fun e => e.1 == mediaFilename msg med) = 0 := by
      rw [List.countP_eq_zero]
      intro a ha hpa
      have hany : dir.any (fun e => e.1 == mediaFilename msg med) = true :=
        List.any_eq_true.mpr ⟨a, ha, hpa⟩
      rw [h] at hany
      exact Bool.false_ne_true hany
    have h1 : processMessageMedia dir msg (some med) =
        dir ++ [(mediaFilename msg med, med.payload)] := by
      simp [processMessageMedia, h]
    have h2 : (dir ++ [(mediaFilename msg med, med.payload)]).any
        (fun e => e.1 == mediaFilename msg med) = true := by
      simp
    have h3 : processMessageMedia (dir ++ [(mediaFilename msg med, med.payload)]) msg
        (some med) = dir ++ [(mediaFilename msg med, med.payload)] := by
      simp [processMessageMedia, h2]
    rw [h1, h3, List.countP_append, hcount]
    simp

/-- Witness for `processMessageMedia_idempotent`: saving the same
view-once image twice into an empty directory leaves exactly one file. -/
theorem processMessageMedia_idempotent_witness :
    (processMessageMedia (processMessageMedia [] ⟨"ABC", true⟩ (some ⟨"imgdata", some "jpeg"⟩))
        ⟨"ABC", true⟩ (some ⟨"imgdata", some "jpeg"⟩)).countP
      (fun e => e.1 == mediaFilename ⟨"ABC", true⟩ ⟨"imgdata", some "jpeg"⟩) = 1 :=
  (processMessageMedia_idempotent [] ⟨"ABC", true⟩ (some ⟨"imgdata", some "jpeg"⟩)).2.2
    ⟨"imgdata", some "jpeg"⟩ rfl (by decide)

/-- `listChats` (viewer.js lines 12-47), up to its first interaction.
The input is the result of `fs.readdir` on the backup chats directory:
`Except.error e` when reading throws, otherwise the list of chat
folders. The output is the list of lines printed before the function
either returns or prompts, paired with the process exit status: every
branch only logs and closes the readline interface, so the process ends
normally with status 0 (no `process.exit` call, no uncaught error). -/
def listChats (dirListing : Except String (List String)) : List String × Nat :=
  match dirListing with
  | Except.error e => (["Error reading chats: " ++ e], 0)
  | Except.ok [] => (["📭 No chats found. Start the backup tool first!"], 0)
  | Except.ok (f :: fs) =>
      ("📱 Available Chats:" ::
        (f :: fs).mapIdx (fun i folder => toString (i + 1) ++ ". " ++ folder), 0)

/-- C9: on an empty backup chats directory the viewer prints the
no-chats-found message and terminates normally with exit status 0. -/
theorem listChats_empty_dir :
    listChats (Except.ok []) =
      (["📭 No chats found. Start the backup tool first!"], 0) := rfl

/-- A JS value read from `config.SYNC_LIMIT`: absent key, JSON `null`, or
an integer. -/
inductive ConfigNum where
  | undef
  | nullv
  | num (n : Int)
  deriving Repr, DecidableEq

/-- JS truthiness of a `ConfigNum`: `undefined`, `null` and `0` are
falsy; every other integer is truthy. -/
def configTruthy : ConfigNum → Bool
  | ConfigNum.num n => n != 0
  | _ => false

/-- The JS expression `config.SYNC_LIMIT || d`. -/
def orDefaultLimit (v : ConfigNum) (d : Int) : Int :=
  if configTruthy v then
    match v with
    | ConfigNum.num n => n
    | _ => d
  else d

/-- Variant 1 fetch limit (viewer.js line 288): `config.SYNC_LIMIT || 99999`. -/
def syncLimitV1 (v : ConfigNum) : Int := orDefaultLimit v 99999

/-- Variant 2 fetch limit (viewer.js line 490): `config.SYNC_LIMIT || 50`. -/
def syncLimitV2 (v : ConfigNum) : Int := orDefaultLimit v 50

/-- C10: whenever `config.SYNC_LIMIT` is falsy (unset, null or 0), the
sync fetches with the built-in default — 99999 in variant 1, 50 in
variant 2 — and in particular never with limit 0, so a configured limit
of 0 does not disable the sync. -/
theorem syncLimit_falsy_uses_default (v : ConfigNum) (h : configTruthy v = false) :
    syncLimitV1 v = 99999 ∧ syncLimitV2 v = 50 ∧
      syncLimitV1 v ≠ 0 ∧ syncLimitV2 v ≠ 0 := by
  refine ⟨?_, ?_, ?_, ?_⟩ <;>
    simp [syncLimitV1, syncLimitV2, orDefaultLimit, h]

/-- Witness for `syncLimit_falsy_uses_default` at the configured value 0. -/
theorem syncLimit_falsy_uses_default_witness :
    syncLimitV1 (ConfigNum.num 0) = 99999 ∧ syncLimitV2 (ConfigNum.num 0) = 50 ∧
      syncLimitV1 (ConfigNum.num 0) ≠ 0 ∧ syncLimitV2 (ConfigNum.num 0) ≠ 0 :=
  syncLimit_falsy_uses_default (ConfigNum.num 0) (by decide)
